import Mathlib

/-!
Verification development for the Trading repository (three Python modules:
`data_fetcher/fetch_daily_data.py`, `strategy_executor/strategy_signal.py`,
`strategy_backtest/backtest.py`).

Modelling conventions used throughout:
* Calendar dates are modelled as natural numbers (day indices); `parse_date`
  and `format_date` in the source are inverse bijections between the textual
  and the calendar representation, so dates are passed around already parsed.
* Floating-point prices are modelled as rationals.  `round(x, 2)` is modelled
  as rounding `x * 100` to the nearest integer (Mathlib `round`) and dividing
  by 100.
* A pandas `DataFrame` of daily bars is modelled as a `List Row`, where the
  date column (`"日期"`) is represented by an `Option ℕ` field: `none` stands
  for a value which `pd.to_datetime(..., errors := coerce)` fails to parse,
  and the remaining columns are collapsed into a single payload field.
* `pd.DataFrame.sort_values` on the date column promises only that its
  output is ascending by date: its default kind (quicksort) is documented
  as not stable, so the relative order of equal-dated rows after sorting is
  unspecified.  `sortByDate` below is the stable ascending refinement, used
  where the order of equal-dated rows is immaterial; where that order is
  the point, the development takes the sort as a parameter
  (`mergeDatasetsWith`) constrained only to the documented contract.
  `drop_duplicates(subset, keep := last)` keeps, for each date, the
  occurrence with no later occurrence of the same date, preserving
  positions of kept rows.
* The per-symbol CSV file is modelled as `Option (List Row)`: `none` when the
  file is absent, `some rows` when it exists with the given data rows.
* The external fetch (`akshare`) is an opaque collaborator and is passed in
  as a function argument.
-/

namespace Trading

/-- One data row of a per-symbol dataset: the parsed date column (`none` when
the raw date fails to parse) and the remaining columns collapsed into one
integer payload. -/
structure Row where
  rdate : Option ℕ
  val : ℤ
deriving DecidableEq, Repr

/-- Sort key of a row: its parsed date (rows are sorted only after rows with
unparseable dates have been dropped, so the default is never compared). -/
def keyOf (r : Row) : ℕ := r.rdate.getD 0

/-- Stable insertion of a row into a date-sorted list: the new row goes after
every row whose key is `≤` its own, matching a stable ascending sort. -/
def insertByDate (r : Row) : List Row → List Row
  | [] => [r]
  | s :: rest => if keyOf r < keyOf s then r :: s :: rest else s :: insertByDate r rest

/-- A stable ascending sort by the date column: one admissible refinement of
`merged.sort_values("日期")`, whose default kind guarantees an ascending
permutation but not stability. -/
def sortByDate (l : List Row) : List Row := l.foldl (fun acc r => insertByDate r acc) []

/-- `drop_duplicates(subset := "日期", keep := "last")`: a row is kept exactly
when no later row has the same date. -/
def keepLast : List Row → List Row
  | [] => []
  | r :: rest =>
      if ∃ s ∈ rest, s.rdate = r.rdate then keepLast rest else r :: keepLast rest

/-- The merge pipeline of `update_symbol_data` for an existing dataset
(lines 137-142 of `fetch_daily_data.py`): concatenate existing and freshly
fetched rows, drop rows whose date fails to parse, sort ascending by date and
deduplicate by date keeping the last occurrence. -/
def mergeDatasets (existing data : List Row) : List Row :=
  keepLast (sortByDate ((existing ++ data).filter (fun r => r.rdate.isSome)))

/-- The same merge pipeline with the sort left as a parameter:
`sort_values` with its default kind guarantees only an ascending-by-date
permutation of its input, so every function meeting that contract is an
admissible behaviour of the code at this call site, and
`mergeDatasets = mergeDatasetsWith sortByDate` is the stable one among
them. -/
def mergeDatasetsWith (sortFn : List Row → List Row) (existing data : List Row) : List Row :=
  keepLast (sortFn ((existing ++ data).filter (fun r => r.rdate.isSome)))

/-- Row-level abstraction of `get_existing_last_date` as used by the sync
logic: the parsed date of the last stored row, `none` when the file is
absent, empty, or its trailing date is unparseable.  (The raw text-level
scan of `get_existing_last_date` is modelled separately below.) -/
def lastDateOf : Option (List Row) → Option ℕ
  | none => none
  | some rows => rows.getLast?.bind Row.rdate

/-- The tail of `update_symbol_data` after the external fetch returned
`data`: return `(0, 0)` when no bars were fetched, otherwise merge into the
existing dataset or create the file from the fetched bars alone.  The first
component of the result models the `(existing_rows, new_rows)` return value,
the second the stored dataset after the call. -/
def mergeStep (data : List Row) (st : Option (List Row)) : (ℕ × ℕ) × Option (List Row) :=
  if data = [] then ((0, 0), st)
  else
    match st with
    | some existing => ((existing.length, data.length), some (mergeDatasets existing data))
    | none => ((0, data.length), some data)

/-- `update_symbol_data(symbol, start, end)` with the external fetch passed
in as a function of the requested window.  Skips (returning `(0, 0)` and
leaving the store unchanged) when the last recorded date reaches the
requested end; otherwise advances the fetch start to the day after the last
recorded date and hands the fetched bars to `mergeStep`. -/
def update_symbol_data (fetch : ℕ → ℕ → List Row) (start endd : ℕ)
    (st : Option (List Row)) : (ℕ × ℕ) × Option (List Row) :=
  match lastDateOf st with
  | some l =>
      if endd ≤ l then ((0, 0), st)
      else mergeStep (fetch (max start (l + 1)) endd) st
  | none => mergeStep (fetch start endd) st

/-! ### Raw text model of `get_existing_last_date`

`get_existing_last_date` works on the raw CSV text, not on parsed rows: it
reads the header line, locates the `"日期"` column, scans backwards from the
end of the file to isolate the trailing chunk up to the previous newline,
and parses the date field of that line.  The file is modelled as
`Option (List Char)` (`none` when absent) and `pd.to_datetime(_, errors :=
coerce)` as an opaque parser argument `List Char → Option ℕ`.  The Python
`try/except` wrapper returning `None` is subsumed by the model being a total
function into `Option`. -/

/-- Python `str.split` on a one-character separator. -/
def splitOnChar (sep : Char) : List Char → List (List Char)
  | [] => [[]]
  | c :: rest =>
      let r := splitOnChar sep rest
      if c = sep then [] :: r else (c :: r.headD []) :: r.tail

/-- The whitespace characters removed by Python `str.strip` that can occur
in the datasets at hand. -/
def isSpaceChar (c : Char) : Bool := c = ' ' ∨ c = '\t' ∨ c = '\n' ∨ c = '\r'

/-- Python `str.strip`: drop whitespace from both ends. -/
def trimChars (cs : List Char) : List Char :=
  ((cs.dropWhile isSpaceChar).reverse.dropWhile isSpaceChar).reverse

/-- The characters of the date column name `"日期"`. -/
def dateColName : List Char := "日期".data

/-- The backwards scan of `get_existing_last_date` (lines 94-100): walk the
characters from the end (the first argument is the reversed content),
accumulate into the buffer, and stop at the first newline met with a
non-empty buffer. -/
def scanBack : List Char → List Char → List Char
  | [], buf => buf
  | c :: rest, buf => if c = '\n' ∧ buf ≠ [] then buf else scanBack rest (c :: buf)

/-- The stripped header line: `handle.readline().strip()`. -/
def headerOf (content : List Char) : List Char :=
  trimChars (content.takeWhile (fun c => !(c = '\n')))

/-- The header split on commas: `header.split(",")`. -/
def columnsOf (content : List Char) : List (List Char) := splitOnChar ',' (headerOf content)

/-- Position of the `"日期"` column in the header: `columns.index("日期")`. -/
def dateIndexOf (content : List Char) : ℕ := (columnsOf content).indexOf dateColName

/-- The stripped trailing chunk isolated by the backwards scan. -/
def lastLineOf (content : List Char) : List Char :=
  trimChars (scanBack content.reverse [])

/-- The trailing line split on commas: `last_line.split(",")`. -/
def valuesOf (content : List Char) : List (List Char) := splitOnChar ',' (lastLineOf content)

/-- The raw date field of the trailing line: `values[date_index]`. -/
def dateFieldOf (content : List Char) : List Char :=
  (valuesOf content).getD (dateIndexOf content) []

/-- `get_existing_last_date(file_path)` (lines 76-112 of
`fetch_daily_data.py`) over the raw file text, with the date parser passed
in as an argument. -/
def get_existing_last_date (parseDate : List Char → Option ℕ) :
    Option (List Char) → Option ℕ
  | none => none
  | some content =>
      if headerOf content = [] then none
      else if dateColName ∈ columnsOf content then
        if content.length ≤ (headerOf content).length then none
        else if lastLineOf content = [] ∨ lastLineOf content = headerOf content then none
        else if (valuesOf content).length ≤ dateIndexOf content then none
        else parseDate (dateFieldOf content)
      else none

/-! ### Symbol-universe tracker

The snapshot file and the markdown changelog are modelled by a record
holding the persisted snapshot (`none` when the file does not exist) and the
append-only list of changelog entries.  An entry records the run date and
the added/removed symbol sets; the textual rendering of an entry is out of
scope. -/

/-- One changelog section: run date plus the added and removed symbol sets. -/
structure ChangelogEntry where
  run_date : String
  added : Finset String
  removed : Finset String
deriving DecidableEq

/-- Persistent state of the universe tracker: the snapshot file and the
changelog file. -/
structure UniverseStore where
  snapshot : Option (List String)
  changelog : List ChangelogEntry
deriving DecidableEq

/-- `load_symbol_snapshot()`: the persisted symbol set, empty when the
snapshot file does not exist. -/
def load_symbol_snapshot (st : UniverseStore) : Finset String :=
  match st.snapshot with
  | none => ∅
  | some l => l.toFinset

/-- `sorted(set(symbols))`: the deduplicated symbols in increasing order. -/
def sortedDedup (l : List String) : List String := l.toFinset.sort (· ≤ ·)

/-- `save_symbol_snapshot(symbols)`: overwrite the snapshot with the
deduplicated, sorted current symbols. -/
def save_symbol_snapshot (symbols : List String) (st : UniverseStore) : UniverseStore :=
  { st with snapshot := some (sortedDedup symbols) }

/-- `log_symbol_changes(run_date, added, removed)`: append one entry to the
changelog (the file is opened in append mode, prior entries are kept). -/
def log_symbol_changes (run_date : String) (added removed : Finset String)
    (st : UniverseStore) : UniverseStore :=
  { st with changelog := st.changelog ++ [⟨run_date, added, removed⟩] }

/-- The snapshot/changelog fragment of `update_all_symbols` (lines 154-159
of `fetch_daily_data.py`): load the previous snapshot, diff the current
symbols against it, append the changelog entry, then overwrite the
snapshot. -/
def update_all_symbols_record (symbols : List String) (run_date : String)
    (st : UniverseStore) : UniverseStore :=
  let previous := load_symbol_snapshot st
  let current := symbols.toFinset
  save_symbol_snapshot symbols
    (log_symbol_changes run_date (current \ previous) (previous \ current) st)

/-! ### Signal generation (`strategy_executor/strategy_signal.py`)

The closing-price column is the input: a list of `Option ℚ`, where `none`
models a value that `pd.to_numeric(_, errors := coerce)` fails to parse and
is subsequently dropped by `dropna`.  The float literals `1.1` and `0.95`
are modelled by the exact rationals `11/10` and `19/20`, and Python
`round(x, 2)` by rounding `x * 100` to the nearest integer. -/

/-- A trade signal as emitted by `compute_signal`. -/
structure Signal where
  symbol : String
  buy_price : ℚ
  buy_qty : ℤ
  take_profit : ℚ
  stop_loss : ℚ
deriving DecidableEq, Repr

/-- `round(x, 2)`: round to two decimal places. -/
def round2 (x : ℚ) : ℚ := (round (x * 100) : ℤ) / 100

/-- The value of a trailing moving average at the last row of the series:
`df["close"].rolling(n).mean()` evaluated on the final bar is the mean of
the last `n` closes. -/
def trailingMean (n : ℕ) (l : List ℚ) : ℚ := (l.drop (l.length - n)).sum / n

/-- `compute_signal(df, symbol, capital_per_trade)` (lines 24-62 of
`strategy_signal.py`): require 30 raw bars and 30 parseable closes, fire
only on a 5-over-20 moving-average crossover between the last two bars,
size the position as `int(capital_per_trade // buy_price)` and drop the
signal when that quantity is not positive. -/
def compute_signal (raw : List (Option ℚ)) (symbol : String) (capital : ℚ) : Option Signal :=
  if raw.length < 30 then none
  else
    let closes := raw.filterMap id
    if closes.length < 30 then none
    else
      let prev := closes.dropLast
      if trailingMean 5 prev ≤ trailingMean 20 prev ∧
          trailingMean 20 closes < trailingMean 5 closes then
        let buy_price := closes.getLastD 0
        let buy_qty : ℤ := ⌊capital / buy_price⌋
        if buy_qty ≤ 0 then none
        else some ⟨symbol, buy_price, buy_qty,
          round2 (buy_price * (11 / 10)), round2 (buy_price * (19 / 20))⟩
      else none

/-! ### Trade simulation and aggregation (`strategy_backtest/backtest.py`) -/

/-- A realized trade outcome. -/
structure TradeResultQ where
  symbol : String
  buy_price : ℚ
  buy_qty : ℤ
  take_profit : ℚ
  stop_loss : ℚ
  sell_price : ℚ
  pnl : ℚ
  return_pct : ℚ
deriving DecidableEq, Repr

/-- The forward window of `evaluate_trade` (lines 54-55): when the series is
longer than `hold_days` the buy bar is `hold_days + 1` bars from the end and
the forward window is the last `hold_days` closes; otherwise the buy bar is
the first row and the forward window is everything after it. -/
def futureCloses (closes : List ℚ) (hold : ℕ) : List ℚ :=
  if hold < closes.length then closes.drop (closes.length - hold) else closes.drop 1

/-- The exit loop of `evaluate_trade` (lines 60-68): walk the forward closes
in order, exit at `take_profit` on the first close reaching it, else at
`stop_loss` on the first close reaching it, else keep the preset default
(the last forward close). -/
def simulateExit (tp sl : ℚ) : List ℚ → ℚ → ℚ
  | [], dflt => dflt
  | c :: rest, dflt =>
      if tp ≤ c then tp else if c ≤ sl then sl else simulateExit tp sl rest dflt

/-- `evaluate_trade(signal, hold_days)` (lines 34-82 of `backtest.py`), with
the signal fields and the stored close column passed in directly.  `none`
models every early return (empty dataset, no parseable closes, empty forward
window). -/
def evaluate_trade (symbol : String) (buy_price : ℚ) (buy_qty : ℤ)
    (take_profit stop_loss : ℚ) (rawCloses : List (Option ℚ)) (hold : ℕ) :
    Option TradeResultQ :=
  if rawCloses = [] then none
  else
    let closes := rawCloses.filterMap id
    if closes = [] then none
    else
      let future := futureCloses closes hold
      if future = [] then none
      else
        let sell := simulateExit take_profit stop_loss future (future.getLastD 0)
        some ⟨symbol, buy_price, buy_qty, take_profit, stop_loss, sell,
          (sell - buy_price) * buy_qty, (sell - buy_price) / buy_price⟩

/-- Arithmetic mean of a list of rationals (`numpy.mean`). -/
def listMean (l : List ℚ) : ℚ := l.sum / l.length

/-- Sample variance with Bessel's correction (the square of
`numpy.std(_, ddof := 1)`). -/
def sampleVar (l : List ℚ) : ℚ :=
  (l.map (fun x => (x - listMean l) ^ 2)).sum / ((l.length : ℚ) - 1)

/-- The summary record returned by `summarize_results`.  The
`profit_loss_ratio` field models the float value `inf` by `none` and a
finite value `q` by `some q`; the `sharpe` field lives in `ℝ` because the
sample standard deviation takes a square root. -/
structure ResultSummary where
  trades : ℕ
  total_pnl : ℚ
  win_rate : ℚ
  profit_loss_ratio : Option ℚ
  sharpe : ℝ

/-- `summarize_results(results)` (lines 85-109 of `backtest.py`). -/
noncomputable def summarize_results (results : List TradeResultQ) : ResultSummary :=
  if results = [] then ⟨0, 0, 0, some 0, 0⟩
  else
    let pnls := results.map TradeResultQ.pnl
    let returns := results.map TradeResultQ.return_pct
    let wins := pnls.filter (fun x => 0 < x)
    let losses := pnls.filter (fun x => x < 0)
    let plr : Option ℚ :=
      if losses = [] then none else some (listMean wins / |listMean losses|)
    let sharpe : ℝ :=
      if 1 < returns.length then (listMean returns : ℝ) / Real.sqrt (sampleVar returns)
      else 0
    ⟨results.length, pnls.sum, (wins.length : ℚ) / (pnls.length : ℚ), plr, sharpe⟩

/-! ### Concrete inputs used by witnesses and counterexamples -/

/-- A fetch returning no bars at all. -/
def fetchEmpty : ℕ → ℕ → List Row := fun _ _ => []

/-- A fetch returning two bars with descending dates. -/
def fetchUnsorted : ℕ → ℕ → List Row := fun _ _ => [⟨some 2, 0⟩, ⟨some 1, 0⟩]

/-- A fetch returning one bar that records the requested window. -/
def fetchReport : ℕ → ℕ → List Row := fun s e => [⟨some s, (e : ℤ)⟩]

/-- An ascending-by-date permutation-producing sort that deviates from the
stable `sortByDate` only on the equal-dated pair
`[⟨some 1, 10⟩, ⟨some 1, 20⟩]`, which it returns in the opposite order —
admissible behaviour for a sort whose stability is not guaranteed. -/
def swapSort (l : List Row) : List Row :=
  if l = [⟨some 1, 10⟩, ⟨some 1, 20⟩] then [⟨some 1, 20⟩, ⟨some 1, 10⟩]
  else sortByDate l

/-- A stored close column whose forward window (hold 3) is `[105, 96, 102]`. -/
def rawForward : List (Option ℚ) := [some 100, some 105, some 96, some 102]

/-- The trade outcome of the forward window `[105, 96, 102]` with entry 100,
take-profit 104 and stop-loss 95. -/
def tradeWin : TradeResultQ := ⟨"X", 100, 1, 104, 95, 104, 4, 1 / 25⟩

/-- 21 closes: twenty bars at 100 and a final bar at 200, so the 5-bar
average crosses above the 20-bar average exactly on the final bar. -/
def closes21 : List ℚ := List.replicate 20 100 ++ [200]

/-- 31 closes: thirty bars at 100 and a final bar at 200, so the 5-bar
average crosses above the 20-bar average exactly on the final bar. -/
def closes31 : List ℚ := List.replicate 30 100 ++ [200]

/-- 30 closes: twenty-nine bars at 100 and a final bar at 200. -/
def closes30 : List ℚ := List.replicate 29 100 ++ [200]

/-- A 30-bar close column whose crossover fires with a final close of 0.01:
nine bars at 1, one bar at 2000, fourteen bars at 0.01, five bars at 100,
and a final bar at 0.01. -/
def rawTiny : List (Option ℚ) :=
  List.replicate 9 (some 1) ++ [some 2000] ++ List.replicate 14 (some (1 / 100)) ++
    List.replicate 5 (some 100) ++ [some (1 / 100)]

/-- The signal emitted on `rawTiny` with capital 100000: its bracket levels
both collapse onto the 0.01 entry price. -/
def sigTiny : Signal := ⟨"X", 1 / 100, 10000000, 1 / 100, 1 / 100⟩

/-- The signal emitted on `closes30` with capital 100000. -/
def sigWide : Signal := ⟨"X", 200, 500, 220, 190⟩

/-- A well-formed two-line dataset file: a header with the date column and
one data row dated `2024-01-02`. -/
def fileSample : List Char := "日期,close\n2024-01-02,3".data

/-- A date parser recognising exactly the date appearing in `fileSample`. -/
def parseSample : List Char → Option ℕ :=
  fun s => if s = "2024-01-02".data then some 42 else none

end Trading

namespace Trading

/-! ### Helper lemmas about the merge pipeline -/

theorem mem_insertByDate {a r : Row} :
    ∀ {l : List Row}, a ∈ insertByDate r l ↔ a = r ∨ a ∈ l := by
  intro l
  induction l with
  | nil => simp [insertByDate]
  | cons s rest ih =>
      rw [insertByDate]
      split
      · simp [List.mem_cons]
      · simp only [List.mem_cons, ih]
        tauto

theorem pairwise_insertByDate {r : Row} {l : List Row}
    (h : l.Pairwise (fun a b => keyOf a ≤ keyOf b)) :
    (insertByDate r l).Pairwise (fun a b => keyOf a ≤ keyOf b) := by
  induction l with
  | nil => simp [insertByDate]
  | cons s rest ih =>
      rw [List.pairwise_cons] at h
      rw [insertByDate]
      split
      next hc =>
        rw [List.pairwise_cons]
        refine ⟨?_, List.pairwise_cons.mpr h⟩
        intro b hb
        rcases List.mem_cons.mp hb with rfl | hb
        · exact hc.le
        · exact hc.le.trans (h.1 b hb)
      next hc =>
        rw [List.pairwise_cons]
        refine ⟨?_, ih h.2⟩
        intro b hb
        rcases mem_insertByDate.mp hb with rfl | hb
        · exact Nat.le_of_not_lt hc
        · exact h.1 b hb

theorem pairwise_sortByDate_aux :
    ∀ (l acc : List Row), acc.Pairwise (fun a b => keyOf a ≤ keyOf b) →
      (l.foldl (fun acc r => insertByDate r acc) acc).Pairwise
        (fun a b => keyOf a ≤ keyOf b)
  | [], _, h => h
  | _ :: l, _, h => pairwise_sortByDate_aux l _ (pairwise_insertByDate h)

theorem pairwise_sortByDate (l : List Row) :
    (sortByDate l).Pairwise (fun a b => keyOf a ≤ keyOf b) :=
  pairwise_sortByDate_aux l [] (by simp)

theorem insertByDate_perm (r : Row) : ∀ l : List Row, (insertByDate r l).Perm (r :: l) := by
  intro l
  induction l with
  | nil => simp [insertByDate]
  | cons s rest ih =>
      rw [insertByDate]
      split
      · exact List.Perm.refl _
      · exact (ih.cons s).trans (List.Perm.swap r s rest)

theorem sortByDate_perm_aux :
    ∀ (l acc : List Row), (l.foldl (fun acc r => insertByDate r acc) acc).Perm (acc ++ l) := by
  intro l
  induction l with
  | nil => intro acc; simp
  | cons r l ih =>
      intro acc
      rw [List.foldl_cons]
      refine ((ih _).trans ?_)
      refine (List.Perm.append_right l (insertByDate_perm r acc)).trans ?_
      exact List.perm_middle.symm

theorem sortByDate_perm (l : List Row) : (sortByDate l).Perm l := by
  simpa using sortByDate_perm_aux l []

theorem keepLast_sublist : ∀ l : List Row, (keepLast l).Sublist l := by
  intro l
  induction l with
  | nil => simp [keepLast]
  | cons r rest ih =>
      rw [keepLast]
      split
      · exact ih.trans (List.sublist_cons_self r rest)
      · exact List.Sublist.cons₂ r ih

theorem pairwise_ne_keepLast :
    ∀ l : List Row, (keepLast l).Pairwise (fun a b => a.rdate ≠ b.rdate) := by
  intro l
  induction l with
  | nil => simp [keepLast]
  | cons r rest ih =>
      rw [keepLast]
      split
      · exact ih
      next hdup =>
        rw [List.pairwise_cons]
        refine ⟨?_, ih⟩
        intro b hb hrb
        exact hdup ⟨b, (keepLast_sublist rest).subset hb, hrb.symm⟩

theorem rdate_eq_keyOf_of_mem_merge {existing data : List Row} {x : Row}
    (hx : x ∈ mergeDatasets existing data) : x.rdate = some (keyOf x) := by
  have h1 : x ∈ sortByDate ((existing ++ data).filter (fun r => r.rdate.isSome)) :=
    (keepLast_sublist _).subset hx
  have h2 : x ∈ (existing ++ data).filter (fun r => r.rdate.isSome) :=
    (sortByDate_perm _).subset h1
  have h3 := (List.mem_filter.mp h2).2
  cases hr : x.rdate with
  | none => rw [hr] at h3; simp at h3
  | some k => simp [keyOf, hr]

theorem merge_pairwise_lt (existing data : List Row) :
    (mergeDatasets existing data).Pairwise (fun a b => keyOf a < keyOf b) := by
  have hle : (mergeDatasets existing data).Pairwise (fun a b => keyOf a ≤ keyOf b) :=
    List.Pairwise.sublist (keepLast_sublist _) (pairwise_sortByDate _)
  have hne : (mergeDatasets existing data).Pairwise (fun a b => a.rdate ≠ b.rdate) :=
    pairwise_ne_keepLast _
  have hboth := hle.and hne
  refine List.Pairwise.imp_of_mem ?_ hboth
  intro a b ha hb hab
  have hka := rdate_eq_keyOf_of_mem_merge ha
  have hkb := rdate_eq_keyOf_of_mem_merge hb
  rcases hab with ⟨hab1, hab2⟩
  rcases eq_or_lt_of_le hab1 with heq | hlt
  · exact absurd (by rw [hka, hkb, heq]) hab2
  · exact hlt

/-! ### Claim theorems -/

/-- C1: the claim's dedup-on-overlap guarantee — exactly one row per
overlapping date, carrying the freshly fetched values — is the spec's
explicit intent, but the code does not provide it: `sort_values("日期")` is
called with its default kind, which is documented as not stable, so the
relative order of an equal-dated stale/fresh pair after sorting is
unspecified and `drop_duplicates(keep := "last")` need not retain the
freshly fetched row.  `swapSort` is an ascending-by-date permutation —
everything the sort's documentation promises — that reverses exactly the
equal-dated pair of the failing input (existing row dated 1 with value 10,
fresh row dated 1 with value 20): under it the merge pipeline keeps the
stale row, while under the stable refinement `sortByDate` the fresh row
survives. -/
theorem merge_dedup_code_bug :
    (∀ l : List Row, (swapSort l).Perm l) ∧
    (∀ l : List Row, (swapSort l).Pairwise (fun a b => keyOf a ≤ keyOf b)) ∧
    mergeDatasetsWith swapSort [⟨some 1, 10⟩] [⟨some 1, 20⟩] = [⟨some 1, 10⟩] ∧
    mergeDatasets [⟨some 1, 10⟩] [⟨some 1, 20⟩] = [⟨some 1, 20⟩] := by
  refine ⟨?_, ?_, by decide, by decide⟩
  · intro l
    rw [swapSort]
    split
    next h =>
      subst h
      exact List.Perm.swap (⟨some 1, 10⟩ : Row) (⟨some 1, 20⟩ : Row) []
    next =>
      exact sortByDate_perm l
  · intro l
    rw [swapSort]
    split
    · simp [List.pairwise_cons, keyOf]
    · exact pairwise_sortByDate l

/-- C2: the synchronization window logic of `update_symbol_data`: when the
last recorded date reaches the requested end it skips without consulting the
external fetch; when a last recorded date exists and the fetch proceeds, the
fetch window starts at `max (requested start) (last recorded date + 1)`; and
whenever the fetch returns no bars the call returns `(0, 0)` and leaves the
stored dataset unchanged. -/
theorem update_symbol_data_window_spec (fetch : ℕ → ℕ → List Row)
    (start endd l : ℕ) (st : Option (List Row)) :
    (lastDateOf st = some l → endd ≤ l →
      update_symbol_data fetch start endd st = ((0, 0), st)) ∧
    (lastDateOf st = some l → l < endd →
      update_symbol_data fetch start endd st =
        mergeStep (fetch (max start (l + 1)) endd) st) ∧
    (lastDateOf st = some l → l < endd → fetch (max start (l + 1)) endd = [] →
      update_symbol_data fetch start endd st = ((0, 0), st)) ∧
    (lastDateOf st = none → fetch start endd = [] →
      update_symbol_data fetch start endd st = ((0, 0), st)) := by
  refine ⟨?_, ?_, ?_, ?_⟩
  · intro h hle
    rw [update_symbol_data, h]
    simp [hle]
  · intro h hlt
    rw [update_symbol_data, h]
    simp [Nat.not_le_of_lt hlt]
  · intro h hlt hfe
    rw [update_symbol_data, h]
    simp [Nat.not_le_of_lt hlt, hfe, mergeStep]
  · intro h hfe
    rw [update_symbol_data, h, hfe]
    simp [mergeStep]

/-- Witness for C2: with a stored last date 5, a requested end 5 skips for
any fetch; a requested end 9 fetches from `max 3 (5 + 1) = 6`; an empty
fetch result skips and leaves the store unchanged. -/
theorem update_symbol_data_window_witness :
    update_symbol_data fetchReport 3 5 (some [⟨some 5, 1⟩]) = ((0, 0), some [⟨some 5, 1⟩]) ∧
    update_symbol_data fetchReport 3 9 (some [⟨some 5, 1⟩]) =
      mergeStep (fetchReport (max 3 6) 9) (some [⟨some 5, 1⟩]) ∧
    update_symbol_data fetchEmpty 3 9 (some [⟨some 5, 1⟩]) = ((0, 0), some [⟨some 5, 1⟩]) ∧
    update_symbol_data fetchEmpty 3 9 none = ((0, 0), none) := by
  refine ⟨?_, ?_, ?_, ?_⟩
  · exact (update_symbol_data_window_spec fetchReport 3 5 5 _).1 rfl (by decide)
  · exact (update_symbol_data_window_spec fetchReport 3 9 5 _).2.1 rfl (by decide)
  · exact (update_symbol_data_window_spec fetchEmpty 3 9 5 _).2.2.1 rfl (by decide) rfl
  · exact (update_symbol_data_window_spec fetchEmpty 3 9 0 _).2.2.2 rfl rfl

/-- Counterexample to C3 as stated: a sync that creates the dataset (store
absent) saves the fetched bars unchanged, so a fetch returning dates `[2, 1]`
completes the sync with a stored date sequence that is not strictly
increasing. -/
theorem sync_strict_order_counterexample :
    (update_symbol_data fetchUnsorted 0 5 none).2 = some [⟨some 2, 0⟩, ⟨some 1, 0⟩] ∧
    ¬ (((update_symbol_data fetchUnsorted 0 5 none).2.getD []).map keyOf).Chain' (· < ·) := by
  refine ⟨rfl, ?_⟩
  intro h
  rw [show (((update_symbol_data fetchUnsorted 0 5 none).2.getD []).map keyOf) = [2, 1]
    from rfl, List.chain'_cons] at h
  exact absurd h.1 (by norm_num)

/-- C3 (amended): after a sync that merges into an existing dataset the
stored dates are strictly increasing with no duplicates (every merged row
carries a parsed date and the key sequence is a strictly increasing chain);
a sync that creates the dataset stores the fetched bars unchanged, so the
invariant holds there only when the fetched bars already satisfy it. -/
theorem sync_strict_order_amended :
    (∀ existing data : List Row,
      ((mergeDatasets existing data).map keyOf).Chain' (· < ·) ∧
      ∀ r ∈ mergeDatasets existing data, r.rdate = some (keyOf r)) ∧
    (∀ (fetch : ℕ → ℕ → List Row) (start endd : ℕ), fetch start endd ≠ [] →
      (update_symbol_data fetch start endd none).2 = some (fetch start endd)) := by
  constructor
  · intro existing data
    constructor
    · exact List.Pairwise.chain' (List.pairwise_map.mpr (merge_pairwise_lt existing data))
    · intro r hr
      exact rdate_eq_keyOf_of_mem_merge hr
  · intro fetch start endd hne
    rw [update_symbol_data]
    simp [lastDateOf, mergeStep, hne]

/-- Witness for C3 (amended): a concrete merge has strictly increasing
stored dates, and a concrete creating sync stores exactly the fetched
bars. -/
theorem sync_strict_order_amended_witness :
    ((mergeDatasets [⟨some 3, 7⟩] [⟨some 1, 10⟩, ⟨some 3, 11⟩]).map keyOf).Chain' (· < ·) ∧
    (update_symbol_data fetchUnsorted 0 5 none).2 = some (fetchUnsorted 0 5) :=
  ⟨(sync_strict_order_amended.1 [⟨some 3, 7⟩] [⟨some 1, 10⟩, ⟨some 3, 11⟩]).1,
    sync_strict_order_amended.2 fetchUnsorted 0 5 (by decide)⟩

/-! ### Helper lemmas about the exit walk -/

theorem simulateExit_cases (tp sl : ℚ) :
    ∀ (l : List ℚ) (dflt : ℚ),
      (∃ pre c post, l = pre ++ c :: post ∧ (∀ b ∈ pre, b < tp ∧ sl < b) ∧
        ((tp ≤ c ∧ simulateExit tp sl l dflt = tp) ∨
         (c < tp ∧ c ≤ sl ∧ simulateExit tp sl l dflt = sl))) ∨
      ((∀ b ∈ l, b < tp ∧ sl < b) ∧ simulateExit tp sl l dflt = dflt) := by
  intro l
  induction l with
  | nil => intro dflt; right; exact ⟨by simp, rfl⟩
  | cons c rest ih =>
      intro dflt
      by_cases h1 : tp ≤ c
      · left
        exact ⟨[], c, rest, by simp, by simp,
          Or.inl ⟨h1, by rw [simulateExit, if_pos h1]⟩⟩
      · by_cases h2 : c ≤ sl
        · left
          refine ⟨[], c, rest, by simp, by simp,
            Or.inr ⟨lt_of_not_le h1, h2, ?_⟩⟩
          rw [simulateExit, if_neg h1, if_pos h2]
        · have hstep : simulateExit tp sl (c :: rest) dflt = simulateExit tp sl rest dflt := by
            rw [simulateExit, if_neg h1, if_neg h2]
          rcases ih dflt with ⟨pre, c', post, heq, hpre, hcase⟩ | ⟨hall, hres⟩
          · left
            refine ⟨c :: pre, c', post, by rw [heq, List.cons_append], ?_, ?_⟩
            · intro b hb
              rcases List.mem_cons.mp hb with rfl | hb
              · exact ⟨lt_of_not_le h1, lt_of_not_le h2⟩
              · exact hpre b hb
            · rcases hcase with ⟨ha, hb'⟩ | ⟨ha, hb', hc⟩
              · exact Or.inl ⟨ha, by rw [hstep]; exact hb'⟩
              · exact Or.inr ⟨ha, hb', by rw [hstep]; exact hc⟩
          · right
            refine ⟨?_, by rw [hstep]; exact hres⟩
            intro b hb
            rcases List.mem_cons.mp hb with rfl | hb
            · exact ⟨lt_of_not_le h1, lt_of_not_le h2⟩
            · exact hall b hb

theorem getLastD_mem {l : List ℚ} (x : ℚ) (h : l ≠ []) : l.getLastD x ∈ l := by
  rw [List.getLastD_eq_getLast?]
  cases hl : l.getLast? with
  | none =>
      exact absurd (List.getLast?_isSome.mpr h) (by rw [hl]; simp)
  | some y => simpa using List.mem_of_mem_getLast? hl

theorem futureCloses_ne_nil_imp {closes : List ℚ} {hold : ℕ}
    (h : futureCloses closes hold ≠ []) : closes ≠ [] := by
  intro hc
  apply h
  rw [hc, futureCloses]
  simp

/-- C4: the trade simulator walks the forward closes in order and exits at
the take-profit price on the first close reaching it, else at the stop-loss
price on the first close reaching it (take-profit checked first on each
bar), else at the last forward close; in particular forward closes
`[105, 96, 102]` with take-profit 104 and stop-loss 95 sell at 104. -/
theorem evaluate_trade_first_touch :
    (∀ (sym : String) (bp : ℚ) (qty : ℤ) (tp sl : ℚ) (raw : List (Option ℚ)) (hold : ℕ),
      futureCloses (raw.filterMap id) hold ≠ [] →
      ∃ r : TradeResultQ, evaluate_trade sym bp qty tp sl raw hold = some r ∧
        ((∃ pre c post, futureCloses (raw.filterMap id) hold = pre ++ c :: post ∧
            (∀ b ∈ pre, b < tp ∧ sl < b) ∧
            ((tp ≤ c ∧ r.sell_price = tp) ∨ (c < tp ∧ c ≤ sl ∧ r.sell_price = sl))) ∨
         ((∀ b ∈ futureCloses (raw.filterMap id) hold, b < tp ∧ sl < b) ∧
            r.sell_price = (futureCloses (raw.filterMap id) hold).getLastD 0))) ∧
    (evaluate_trade "X" 100 1 104 95 rawForward 3).map TradeResultQ.sell_price =
      some 104 := by
  constructor
  · intro sym bp qty tp sl raw hold hfut
    have hcl : raw.filterMap id ≠ [] := futureCloses_ne_nil_imp hfut
    have hraw : raw ≠ [] := by
      intro h
      apply hcl
      rw [h]
      rfl
    have heval : evaluate_trade sym bp qty tp sl raw hold = some ⟨sym, bp, qty, tp, sl,
        simulateExit tp sl (futureCloses (raw.filterMap id) hold)
          ((futureCloses (raw.filterMap id) hold).getLastD 0),
        (simulateExit tp sl (futureCloses (raw.filterMap id) hold)
          ((futureCloses (raw.filterMap id) hold).getLastD 0) - bp) * qty,
        (simulateExit tp sl (futureCloses (raw.filterMap id) hold)
          ((futureCloses (raw.filterMap id) hold).getLastD 0) - bp) / bp⟩ := by
      rw [evaluate_trade, if_neg hraw]
      simp only []
      rw [if_neg hcl, if_neg hfut]
    refine ⟨_, heval, ?_⟩
    rcases simulateExit_cases tp sl (futureCloses (raw.filterMap id) hold)
        ((futureCloses (raw.filterMap id) hold).getLastD 0) with
      ⟨pre, c, post, heq, hpre, hcase⟩ | ⟨hall, hres⟩
    · exact Or.inl ⟨pre, c, post, heq, hpre, hcase⟩
    · exact Or.inr ⟨hall, hres⟩
  · decide

/-- Witness for C4: the general clause applied to the concrete forward
window `[105, 96, 102]`. -/
theorem evaluate_trade_first_touch_witness :
    ∃ r : TradeResultQ, evaluate_trade "X" 100 1 104 95 rawForward 3 = some r ∧
      ((∃ pre c post, futureCloses (rawForward.filterMap id) 3 = pre ++ c :: post ∧
          (∀ b ∈ pre, b < 104 ∧ 95 < b) ∧
          ((104 ≤ c ∧ r.sell_price = 104) ∨ (c < 104 ∧ c ≤ 95 ∧ r.sell_price = 95))) ∨
       ((∀ b ∈ futureCloses (rawForward.filterMap id) 3, b < 104 ∧ 95 < b) ∧
          r.sell_price = (futureCloses (rawForward.filterMap id) 3).getLastD 0)) :=
  evaluate_trade_first_touch.1 "X" 100 1 104 95 rawForward 3 (by decide)

/-! ### Helper lemmas about the signal rule -/

theorem filterMap_id_map_some (l : List ℚ) : (l.map some).filterMap id = l := by
  rw [List.filterMap_map]
  simp

theorem compute_signal_of_crossover (closes : List ℚ) (sym : String) (cap : ℚ)
    (hlen : 30 ≤ closes.length)
    (hcross : trailingMean 5 closes.dropLast ≤ trailingMean 20 closes.dropLast ∧
      trailingMean 20 closes < trailingMean 5 closes)
    (hqty : ¬ (⌊cap / closes.getLastD 0⌋ ≤ 0)) :
    compute_signal (closes.map some) sym cap = some ⟨sym, closes.getLastD 0,
      ⌊cap / closes.getLastD 0⌋, round2 (closes.getLastD 0 * (11 / 10)),
      round2 (closes.getLastD 0 * (19 / 20))⟩ := by
  rw [compute_signal, List.length_map, if_neg (by omega)]
  simp only [filterMap_id_map_some]
  rw [if_neg (by omega), if_pos hcross, if_neg hqty]

theorem compute_signal_of_no_crossover (closes : List ℚ) (sym : String) (cap : ℚ)
    (hlen : 30 ≤ closes.length)
    (hnc : ¬ (trailingMean 5 closes.dropLast ≤ trailingMean 20 closes.dropLast ∧
      trailingMean 20 closes < trailingMean 5 closes)) :
    compute_signal (closes.map some) sym cap = none := by
  rw [compute_signal, List.length_map, if_neg (by omega)]
  simp only [filterMap_id_map_some]
  rw [if_neg (by omega), if_neg hnc]

/-- Counterexample to C5 as stated: on the 21-close series
`[100 × 20, 200]` the 5-bar average crosses above the 20-bar average
exactly on the final bar, yet `compute_signal` returns none because the
series is shorter than the required 30 bars of history. -/
theorem crossover_example_counterexample :
    closes21.length = 21 ∧
    (trailingMean 5 closes21.dropLast ≤ trailingMean 20 closes21.dropLast ∧
      trailingMean 20 closes21 < trailingMean 5 closes21) ∧
    compute_signal (closes21.map some) "X" 100000 = none := by
  refine ⟨by simp [closes21], ?_, ?_⟩
  · norm_num [closes21, trailingMean, List.replicate_succ]
  · norm_num [closes21, compute_signal, List.replicate_succ, List.filterMap_cons]

/-- C5 (amended): for a series of exactly 31 closes whose 5-bar average
crosses above the 20-bar average only on the final bar (and whose last
close is affordable for one unit), the signal evaluation returns a signal
whose buy price equals the final close; for the identical series minus its
last bar (30 closes, crossover not yet realized), it returns none. -/
theorem crossover_example_amended (closes : List ℚ) (sym : String) (cap : ℚ)
    (hlen : closes.length = 31)
    (hcross : trailingMean 5 closes.dropLast ≤ trailingMean 20 closes.dropLast ∧
      trailingMean 20 closes < trailingMean 5 closes)
    (hnoprev : ¬ (trailingMean 5 closes.dropLast.dropLast ≤
        trailingMean 20 closes.dropLast.dropLast ∧
      trailingMean 20 closes.dropLast < trailingMean 5 closes.dropLast))
    (hqty : 1 ≤ ⌊cap / closes.getLastD 0⌋) :
    (∃ s : Signal, compute_signal (closes.map some) sym cap = some s ∧
      s.buy_price = closes.getLastD 0) ∧
    compute_signal (closes.dropLast.map some) sym cap = none := by
  constructor
  · exact ⟨_, compute_signal_of_crossover closes sym cap (by omega) hcross (by omega), rfl⟩
  · exact compute_signal_of_no_crossover closes.dropLast sym cap
      (by rw [List.length_dropLast, hlen]) hnoprev

/-- Witness for C5 (amended) on the concrete series `[100 × 30, 200]` with
capital 100000. -/
theorem crossover_example_amended_witness :
    (∃ s : Signal, compute_signal (closes31.map some) "X" 100000 = some s ∧
      s.buy_price = closes31.getLastD 0) ∧
    compute_signal (closes31.dropLast.map some) "X" 100000 = none :=
  crossover_example_amended closes31 "X" 100000 (by simp [closes31])
    (by norm_num [closes31, trailingMean, List.replicate_succ])
    (by norm_num [closes31, trailingMean, List.replicate_succ])
    (by norm_num [closes31, List.replicate_succ])

/-- C10: whenever the trade simulator returns a result for a signal whose
stop-loss does not exceed its take-profit, the realized sell price lies
between the two bounds. -/
theorem evaluate_trade_sell_within_bounds (sym : String) (bp : ℚ) (qty : ℤ)
    (tp sl : ℚ) (raw : List (Option ℚ)) (hold : ℕ) (r : TradeResultQ)
    (hb : sl ≤ tp) (h : evaluate_trade sym bp qty tp sl raw hold = some r) :
    sl ≤ r.sell_price ∧ r.sell_price ≤ tp := by
  rw [evaluate_trade] at h
  by_cases hraw : raw = []
  · rw [if_pos hraw] at h
    cases h
  rw [if_neg hraw] at h
  simp only [] at h
  by_cases hcl : raw.filterMap id = []
  · rw [if_pos hcl] at h
    cases h
  rw [if_neg hcl] at h
  by_cases hfut : futureCloses (raw.filterMap id) hold = []
  · rw [if_pos hfut] at h
    cases h
  rw [if_neg hfut] at h
  injection h with h
  subst h
  rcases simulateExit_cases tp sl (futureCloses (raw.filterMap id) hold)
      ((futureCloses (raw.filterMap id) hold).getLastD 0) with
    ⟨pre, c, post, _, _, hcase⟩ | ⟨hall, hres⟩
  · rcases hcase with ⟨_, heq⟩ | ⟨_, _, heq⟩
    · simp only [heq]
      exact ⟨hb, le_refl tp⟩
    · simp only [heq]
      exact ⟨le_refl sl, hb⟩
  · have hmem := getLastD_mem 0 hfut
    have := hall _ hmem
    simp only [hres]
    exact ⟨this.2.le, this.1.le⟩

/-- Counterexample to C9 as stated: on the 30-close series `rawTiny` the
crossover fires with a final close of 0.01 and capital 100000 affords
10000000 units, yet both bracket levels round back onto the entry price:
the emitted signal violates `stop_loss < buy_price < take_profit`. -/
theorem signal_bracket_counterexample :
    compute_signal rawTiny "X" 100000 = some sigTiny ∧
    ¬ (sigTiny.buy_price < sigTiny.take_profit) ∧
    ¬ (sigTiny.stop_loss < sigTiny.buy_price) := by
  refine ⟨?_, ?_, ?_⟩
  · norm_num [rawTiny, compute_signal, List.replicate_succ, List.filterMap_cons,
      trailingMean, round2, sigTiny, round_eq]
  · norm_num [sigTiny]
  · norm_num [sigTiny]

/-- C9 (amended): every signal emitted by `compute_signal` has a positive
quantity, its take-profit is the entry price times 1.1 rounded to two
decimals and its stop-loss is the entry price times 0.95 rounded to two
decimals; and whenever the entry price exceeds 0.1 the bracket is strict:
`stop_loss < buy_price < take_profit`. -/
theorem signal_bracket_amended (raw : List (Option ℚ)) (sym : String) (cap : ℚ)
    (s : Signal) (h : compute_signal raw sym cap = some s) :
    0 < s.buy_qty ∧
    s.take_profit = round2 (s.buy_price * (11 / 10)) ∧
    s.stop_loss = round2 (s.buy_price * (19 / 20)) ∧
    (1 / 10 < s.buy_price → s.stop_loss < s.buy_price ∧ s.buy_price < s.take_profit) := by
  rw [compute_signal] at h
  dsimp only at h
  by_cases c1 : raw.length < 30
  · rw [if_pos c1] at h
    exact Option.noConfusion h
  rw [if_neg c1] at h
  by_cases c2 : (raw.filterMap id).length < 30
  · rw [if_pos c2] at h
    exact Option.noConfusion h
  rw [if_neg c2] at h
  by_cases c3 : trailingMean 5 (raw.filterMap id).dropLast ≤
      trailingMean 20 (raw.filterMap id).dropLast ∧
      trailingMean 20 (raw.filterMap id) < trailingMean 5 (raw.filterMap id)
  · rw [if_pos c3] at h
    by_cases c4 : ⌊cap / (raw.filterMap id).getLastD 0⌋ ≤ 0
    · rw [if_pos c4] at h
      exact Option.noConfusion h
    · rw [if_neg c4] at h
      injection h with h
      subst h
      refine ⟨lt_of_not_le c4, rfl, rfl, ?_⟩
      intro hbp
      set B : ℚ := (raw.filterMap id).getLastD 0 with hB
      dsimp only at hbp ⊢
      constructor
      · have h95 : B * (19 / 20) * 100 = 95 * B := by ring
        rw [round2, h95]
        rw [div_lt_iff₀ (by norm_num : (0 : ℚ) < 100)]
        have habs := abs_le.mp (abs_sub_round (95 * B))
        have hup : (↑(round (95 * B)) : ℚ) ≤ 95 * B + 1 / 2 := by linarith [habs.1]
        linarith
      · have h110 : B * (11 / 10) * 100 = 110 * B := by ring
        rw [round2, h110]
        rw [lt_div_iff₀ (by norm_num : (0 : ℚ) < 100)]
        have habs := abs_le.mp (abs_sub_round (110 * B))
        have hlo : 110 * B - 1 / 2 ≤ (↑(round (110 * B)) : ℚ) := by linarith [habs.2]
        linarith
  · rw [if_neg c3] at h
    exact Option.noConfusion h

/-- Witness for C9 (amended) at the series `[100 × 29, 200]` with capital
100000: the emitted signal is `⟨200, 500, 220, 190⟩` and its bracket is
strict. -/
theorem signal_bracket_amended_witness :
    0 < sigWide.buy_qty ∧ sigWide.stop_loss < sigWide.buy_price ∧
      sigWide.buy_price < sigWide.take_profit := by
  have h := signal_bracket_amended (closes30.map some) "X" 100000 sigWide
    (by norm_num [closes30, compute_signal, List.replicate_succ, List.filterMap_cons,
      trailingMean, round2, sigWide])
  have hb := h.2.2.2 (by norm_num [sigWide])
  exact ⟨h.1, hb.1, hb.2⟩

/-- Witness for C10 at the `[105, 96, 102]` forward window: the realized
sell price 104 lies between stop-loss 95 and take-profit 104. -/
theorem evaluate_trade_sell_within_bounds_witness :
    (95 : ℚ) ≤ tradeWin.sell_price ∧ tradeWin.sell_price ≤ 104 :=
  evaluate_trade_sell_within_bounds "X" 100 1 104 95 rawForward 3 tradeWin
    (by norm_num) (by
      norm_num [evaluate_trade, rawForward, futureCloses, simulateExit, tradeWin,
        List.filterMap_cons, List.filterMap_nil]
      exact ⟨by simp, by simp, fun h => absurd h (by simp)⟩)

/-- C6: `summarize_results` on an empty collection returns all zeros (with
a finite zero profit/loss ratio) without dividing by zero; on a non-empty
collection the profit/loss ratio is the mean of the positive pnls over the
absolute mean of the negative pnls, infinite (`none`) exactly when there
are no losing trades, and the sharpe-like ratio is the mean return over the
Bessel-corrected sample standard deviation, defined as 0 for fewer than two
trades. -/
theorem summarize_results_spec :
    summarize_results [] = ⟨0, 0, 0, some 0, 0⟩ ∧
    ∀ rs : List TradeResultQ, rs ≠ [] →
      (summarize_results rs).trades = rs.length ∧
      (summarize_results rs).total_pnl = (rs.map TradeResultQ.pnl).sum ∧
      (summarize_results rs).win_rate =
        (((rs.map TradeResultQ.pnl).filter (fun x => 0 < x)).length : ℚ) / rs.length ∧
      ((rs.map TradeResultQ.pnl).filter (fun x => x < 0) = [] →
        (summarize_results rs).profit_loss_ratio = none) ∧
      ((rs.map TradeResultQ.pnl).filter (fun x => x < 0) ≠ [] →
        (summarize_results rs).profit_loss_ratio =
          some (listMean ((rs.map TradeResultQ.pnl).filter (fun x => 0 < x)) /
            |listMean ((rs.map TradeResultQ.pnl).filter (fun x => x < 0))|)) ∧
      (rs.length < 2 → (summarize_results rs).sharpe = 0) ∧
      (2 ≤ rs.length → (summarize_results rs).sharpe =
        (listMean (rs.map TradeResultQ.return_pct) : ℝ) /
          Real.sqrt (sampleVar (rs.map TradeResultQ.return_pct))) := by
  constructor
  · rfl
  · intro rs hrs
    rw [summarize_results, if_neg hrs]
    dsimp only
    refine ⟨rfl, rfl, by rw [List.length_map], ?_, ?_, ?_, ?_⟩
    · intro hl
      rw [if_pos hl]
    · intro hl
      rw [if_neg hl]
    · intro hlen
      rw [if_neg (by rw [List.length_map]; omega)]
    · intro hlen
      rw [if_pos (by rw [List.length_map]; omega)]

/-- Witness for C6: a single winning trade has no losing trades, so its
profit/loss ratio is infinite (`none`) and its sharpe-like ratio is 0. -/
theorem summarize_results_witness :
    (summarize_results [tradeWin]).profit_loss_ratio = none ∧
    (summarize_results [tradeWin]).sharpe = 0 := by
  have h := summarize_results_spec.2 [tradeWin] (by simp)
  exact ⟨h.2.2.2.1 (by norm_num [tradeWin]), h.2.2.2.2.2.1 (by norm_num)⟩

/-- C7: `last_recorded_date` returns the date the parser extracts from the
date field of the isolated trailing line, and returns none — the model is a
total function, so nothing propagates past the store boundary — exactly
when the file is absent, the stripped header is empty, the header lacks the
date column, the file holds nothing beyond the header, the trailing line is
empty or equals the header, the trailing line has no field at the date
column's index, or the trailing date field fails to parse. -/
theorem get_existing_last_date_spec (p : List Char → Option ℕ)
    (file : Option (List Char)) :
    (get_existing_last_date p file = none ↔
      file = none ∨ ∃ content, file = some content ∧
        (headerOf content = [] ∨ dateColName ∉ columnsOf content ∨
         content.length ≤ (headerOf content).length ∨
         lastLineOf content = [] ∨ lastLineOf content = headerOf content ∨
         (valuesOf content).length ≤ dateIndexOf content ∨
         p (dateFieldOf content) = none)) ∧
    (∀ d, get_existing_last_date p file = some d →
      ∃ content, file = some content ∧ p (dateFieldOf content) = some d) := by
  cases file with
  | none => simp [get_existing_last_date]
  | some content =>
      simp only [get_existing_last_date]
      constructor
      · constructor
        · intro h
          refine Or.inr ⟨content, rfl, ?_⟩
          by_cases h1 : headerOf content = []
          · exact Or.inl h1
          rw [if_neg h1] at h
          by_cases h2 : dateColName ∈ columnsOf content
          case neg => exact Or.inr (Or.inl h2)
          rw [if_pos h2] at h
          by_cases h3 : content.length ≤ (headerOf content).length
          · exact Or.inr (Or.inr (Or.inl h3))
          rw [if_neg h3] at h
          by_cases h4 : lastLineOf content = [] ∨ lastLineOf content = headerOf content
          · rcases h4 with h4 | h4
            · exact Or.inr (Or.inr (Or.inr (Or.inl h4)))
            · exact Or.inr (Or.inr (Or.inr (Or.inr (Or.inl h4))))
          rw [if_neg h4] at h
          by_cases h5 : (valuesOf content).length ≤ dateIndexOf content
          · exact Or.inr (Or.inr (Or.inr (Or.inr (Or.inr (Or.inl h5)))))
          rw [if_neg h5] at h
          exact Or.inr (Or.inr (Or.inr (Or.inr (Or.inr (Or.inr h)))))
        · intro h
          rcases h with h | ⟨c, hc, hcase⟩
          · exact Option.noConfusion h
          · injection hc with hc
            subst hc
            split_ifs with g1 g2 g3 g4 g5 <;> first | rfl | tauto
      · intro d hd
        refine ⟨content, rfl, ?_⟩
        by_cases h1 : headerOf content = []
        · rw [if_pos h1] at hd
          exact Option.noConfusion hd
        rw [if_neg h1] at hd
        by_cases h2 : dateColName ∈ columnsOf content
        case neg =>
          rw [if_neg h2] at hd
          exact Option.noConfusion hd
        rw [if_pos h2] at hd
        by_cases h3 : content.length ≤ (headerOf content).length
        · rw [if_pos h3] at hd
          exact Option.noConfusion hd
        rw [if_neg h3] at hd
        by_cases h4 : lastLineOf content = [] ∨ lastLineOf content = headerOf content
        · rw [if_pos h4] at hd
          exact Option.noConfusion hd
        rw [if_neg h4] at hd
        by_cases h5 : (valuesOf content).length ≤ dateIndexOf content
        · rw [if_pos h5] at hd
          exact Option.noConfusion hd
        rw [if_neg h5] at hd
        exact hd

/-- Witness for C7: on the concrete two-line file `fileSample` the parser
receives exactly the trailing date field and its result is returned. -/
theorem get_existing_last_date_witness :
    ∃ content, (some fileSample : Option (List Char)) = some content ∧
      parseSample (dateFieldOf content) = some 42 :=
  (get_existing_last_date_spec parseSample (some fileSample)).2 42 (by decide)

/-- C8: one run of the universe tracker appends exactly one changelog entry
whose added/removed sets are diffed against the previously persisted
snapshot, then overwrites the snapshot with the deduplicated, sorted
current symbols. -/
theorem universe_record_spec (symbols : List String) (d : String) (st : UniverseStore) :
    (update_all_symbols_record symbols d st).changelog =
      st.changelog ++ [⟨d, symbols.toFinset \ load_symbol_snapshot st,
        load_symbol_snapshot st \ symbols.toFinset⟩] ∧
    (update_all_symbols_record symbols d st).snapshot = some (sortedDedup symbols) ∧
    (sortedDedup symbols).Sorted (· ≤ ·) ∧
    (sortedDedup symbols).Nodup ∧
    (sortedDedup symbols).toFinset = symbols.toFinset := by
  refine ⟨rfl, rfl, ?_, ?_, ?_⟩
  · rw [sortedDedup]
    exact Finset.sort_sorted _ _
  · rw [sortedDedup]
    exact Finset.sort_nodup _ _
  · rw [sortedDedup]
    exact Finset.sort_toFinset _ _

end Trading
